import Mathlib

/-!
# Verification of the hybrid memory system

Shallow embedding of the memory service sources
(`src/qdrant_service.py`, `src/classifier_service.py`,
`local-test-deployment/qdrant_service_v3_batched.py`) and proofs about the
claims of the specification.

External collaborators (the sentence-transformer embedder, the LLM classifier
generation, and the Qdrant vector index) are modelled as parameters or as the
narrow state transformations the code relies on (upsert-by-id, per-space query
result lists); everything the claims quantify over is translated from the
Python source.
-/

namespace HybridMemory

/-! ## String helpers

Python's `needle in haystack` on strings is substring containment; `str.lower`
is lower-casing. -/

/-- Substring occurrence on character lists (Python `pat in s`). -/
def listIsInfix (pat : List Char) : List Char → Bool
  | [] => pat.isEmpty
  | c :: cs => pat.isPrefixOf (c :: cs) || listIsInfix pat cs

/-- Python `pat in s` for strings. -/
def containsSub (s pat : String) : Bool :=
  listIsInfix pat.toList s.toList

/-- Python `any(word in lower for word in words)`. -/
def containsAny (s : String) (words : List String) : Bool :=
  words.any (fun w => containsSub s w)

/-- Python `str.lower` (the texts involved are ASCII, where per-character
lower-casing coincides with Python's). -/
def pyLower (s : String) : String :=
  String.mk (s.toList.map Char.toLower)

namespace Qdrant

/-! ## `src/qdrant_service.py` -/

/-- `simple_heuristic_classifiers` (qdrant_service.py lines 104-129):
fast keyword heuristic over the lower-cased text. -/
def simple_heuristic_classifiers (text : String) : List String :=
  let lower := pyLower text
  if containsAny lower ["food", "eat", "meal", "dinner", "lunch", "breakfast",
      "restaurant", "cuisine"] then
    if containsAny lower ["allergy", "allergic"] then
      ["dietary restriction", "health condition"]
    else if containsAny lower ["vegetarian", "vegan"] then
      ["dietary preference", "lifestyle"]
    else if containsAny lower ["love", "like", "enjoy", "favorite"] then
      ["food preference", "taste"]
    else if containsAny lower ["hate", "dislike", "avoid"] then
      ["food aversion", "taste"]
    else ["food preference", "dietary"]
  else if containsAny lower ["movie", "film", "cinema", "director", "actor"] then
    ["entertainment preference", "media"]
  else if containsAny lower ["music", "song", "artist", "album", "band"] then
    ["music preference", "entertainment"]
  else ["personal preference", "general"]

/-- `infer_topic` (qdrant_service.py lines 154-163). -/
def infer_topic (text : String) : Option String :=
  let lower := pyLower text
  if containsAny lower ["food", "restaurant", "cuisine", "meal", "eat",
      "allergy", "vegetarian"] then some "food"
  else if containsAny lower ["movie", "film", "cinema"] then some "movies"
  else if containsAny lower ["music", "song", "artist"] then some "music"
  else none

/-- Python `a or b` on an optional string (`None` and `""` are falsy). -/
def pyOr (a : Option String) (b : Option String) : Option String :=
  match a with
  | some s => if s.isEmpty then b else some s
  | none => b

/-- `get_classifiers` (qdrant_service.py lines 131-152).  The classifier
service call is modelled by `serviceResp`: `some cs` is a 200 response whose
body carried `cs`, `none` is a timeout / transport error / non-200 response
(the `except: pass` fall-through). -/
def get_classifiers (text : String) (provided : Option (List String))
    (useService : Bool) (serviceResp : Option (List String)) : List String :=
  if 2 ≤ (provided.getD []).length then (provided.getD []).take 2
  else if useService then
    match serviceResp with
    | some cs => cs
    | none => simple_heuristic_classifiers text
  else simple_heuristic_classifiers text

/-- `AddMemoryRequest` (qdrant_service.py lines 86-91). -/
structure AddMemoryRequest where
  user_id : String
  text : String
  topic : Option String := none
  type_ : String := "stable"
  classifiers : Option (List String) := none
deriving DecidableEq

/-- Python `f"{topic}"` where `topic` may be `None`. -/
def topicStr : Option String → String
  | some t => t
  | none => "None"

/-- Deterministic stand-in for Python's built-in string `hash`.  Within one
process Python's `hash` is a fixed function of the string, which is all the
code and the claims rely on; the exact values are irrelevant to every claim,
only functionality (equal strings give equal hashes) is used. -/
def pyHash (s : String) : Nat :=
  s.toList.foldl (fun h c => (h * 1000003 + c.toNat) % 2 ^ 64) 0

/-- `hash(f"{user_id}:{text}:{topic}") % (2**63)` (qdrant_service.py line 186,
also line 327 and qdrant_service_v3_batched.py line 231). -/
def pointId (user_id text : String) (topic : Option String) : Nat :=
  pyHash (user_id ++ ":" ++ text ++ ":" ++ topicStr topic) % 2 ^ 63

/-- The payload stored with a point (qdrant_service.py lines 194-201 and
329-335; the batch endpoint stores no `classifier_source`). -/
structure Payload where
  text : String
  user_id : String
  topic : Option String
  type_ : String
  classifiers : List String
  classifier_source : Option String
deriving DecidableEq

/-- The vector index, reduced to what the claims observe: the set of stored
points keyed by id.  Embedding vectors are computed by the external embedder
and play no role in any claim. -/
abbrev Store := List (Nat × Payload)

/-- `client.upsert` with a single point: replace the record with this id if
present, else insert it. -/
def upsert (s : Store) (id : Nat) (p : Payload) : Store :=
  s.filter (fun kv => kv.1 != id) ++ [(id, p)]

/-- Number of stored records carrying a given id. -/
def countId (s : Store) (id : Nat) : Nat :=
  (s.filter (fun kv => kv.1 == id)).length

/-- The classifiers stored by `add_memory` (qdrant_service.py line 170):
`req.classifiers[:2] if req.classifiers and len(req.classifiers) >= 2
else simple_heuristic_classifiers(req.text)`. -/
def memClassifiers (req : AddMemoryRequest) : List String :=
  match req.classifiers with
  | some l => if 2 ≤ l.length then l.take 2 else simple_heuristic_classifiers req.text
  | none => simple_heuristic_classifiers req.text

/-- `"provided" if req.classifiers else "heuristic"` (qdrant_service.py
lines 200 and 213); `None` and `[]` are falsy. -/
def classifierSource (req : AddMemoryRequest) : String :=
  match req.classifiers with
  | some l => if l.isEmpty then "heuristic" else "provided"
  | none => "heuristic"

/-- `topic = req.topic or infer_topic(req.text)` (qdrant_service.py line 177). -/
def resolvedTopic (req : AddMemoryRequest) : Option String :=
  pyOr req.topic (infer_topic req.text)

/-- Response of `POST /add_memory` (qdrant_service.py lines 209-215). -/
structure AddMemoryResponse where
  status : String
  topic : Option String
  classifiers : List String
  classifier_source : String
  async_improvement : Bool
deriving DecidableEq

/-- `add_memory` (qdrant_service.py lines 165-218).  The function performs no
validation: it computes classifiers, resolves the topic, derives the point id
and upserts immediately; `useService` is the `USE_CLASSIFIER_SERVICE` flag
(it only affects the fire-and-forget background improvement, never the
synchronous path). -/
def add_memory (useService : Bool) (store : Store) (req : AddMemoryRequest) :
    AddMemoryResponse × Store :=
  let classifiers := memClassifiers req
  let topic := resolvedTopic req
  let pid := pointId req.user_id req.text topic
  let store' := upsert store pid
    ⟨req.text, req.user_id, topic, req.type_, classifiers, some (classifierSource req)⟩
  (⟨"success", topic, classifiers, classifierSource req,
    (match req.classifiers with | some l => l.isEmpty | none => true) && useService⟩,
   store')

/-! ### `add_memories_batch` (qdrant_service.py lines 263-347) -/

/-- First pass of `add_memories_batch` (lines 277-283): memories with ≥ 2
provided classifiers keep their first two, the rest get a `None` placeholder
(and are queued for the batch classifier-service call). -/
def batchInit (memories : List AddMemoryRequest) : List (Option (List String)) :=
  memories.map (fun m =>
    match m.classifiers with
    | some l => if 2 ≤ l.length then some (l.take 2) else none
    | none => none)

/-- `for idx, result in zip(needs_classification_indices, batch_results)`
(lines 295-296): the k-th `None` placeholder receives the k-th service result;
`zip` truncates, so placeholders beyond the results stay `None`. -/
def fillFromService : List (Option (List String)) → List (List String) →
    List (Option (List String))
  | [], _ => []
  | some c :: xs, rs => some c :: fillFromService xs rs
  | none :: xs, [] => none :: fillFromService xs []
  | none :: xs, r :: rs => some r :: fillFromService xs rs

/-- Classifier lists used by `add_memories_batch` (lines 270-303).  `svc` is
the `/classify_batch` response (`none` models a transport error or non-200,
the `except: pass` fall-through); remaining placeholders are filled with the
heuristic.  When no memory needs classification the service is not called, and
`fillFromService` is the identity on a placeholder-free list. -/
def batchAllClassifiers (memories : List AddMemoryRequest) (useService : Bool)
    (svc : Option (List (List String))) : List (List String) :=
  let init := batchInit memories
  let filled :=
    if useService then
      match svc with
      | some rs => fillFromService init rs
      | none => init
    else init
  (filled.zip memories).map (fun p => p.1.getD (simple_heuristic_classifiers p.2.text))

/-- The points built by `add_memories_batch` (lines 312-336), one per memory
in order. -/
def batchPoints (memories : List AddMemoryRequest) (useService : Bool)
    (svc : Option (List (List String))) : List (Nat × Payload) :=
  (memories.zip (batchAllClassifiers memories useService svc)).map (fun p =>
    let topic := pyOr p.1.topic (infer_topic p.1.text)
    (pointId p.1.user_id p.1.text topic,
     ⟨p.1.text, p.1.user_id, topic, p.1.type_, p.2, none⟩))

/-- `add_memories_batch` (qdrant_service.py lines 263-347): build one point
per memory, upsert them in one call, and report `inserted = len(points)`. -/
def add_memories_batch (useService : Bool) (store : Store)
    (memories : List AddMemoryRequest) (svc : Option (List (List String))) :
    (String × Nat) × Store :=
  let points := batchPoints memories useService svc
  (("success", points.length), points.foldl (fun s kv => upsert s kv.1 kv.2) store)

/-! ### `search` (qdrant_service.py lines 349-410) -/

/-- A payload-filter condition (`FieldCondition(key=..., match=MatchValue(...))`). -/
inductive FieldCond where
  | userEq (u : String)
  | topicEq (t : String)
deriving DecidableEq

/-- `topic_map = {"places": "food", "movies": "movies", "music": "music"}`
(line 360) as a lookup. -/
def topicMapLookup (d : String) : Option String :=
  if d = "places" then some "food"
  else if d = "movies" then some "movies"
  else if d = "music" then some "music"
  else none

/-- `must_conditions` (lines 355-364): always `user_id` equality; a `topic`
equality is appended only when a truthy domain is in `topic_map` (Python
`if req.domain:` treats `None` and `""` as falsy). -/
def mustConditions (user_id : String) (domain : Option String) : List FieldCond :=
  let base := [FieldCond.userEq user_id]
  match domain with
  | none => base
  | some d =>
    if d = "" then base
    else
      match topicMapLookup d with
      | some t => base ++ [FieldCond.topicEq t]
      | none => base

/-- One scored candidate returned by `client.query_points` for one space:
`(point id, score)`.  Scores are the index's similarity values; the fusion
logic only compares them, so they are modelled as rationals. -/
abbrev Hit := Nat × ℚ

/-- One step of the `all_results` dict update (lines 382-384):
`if result.id not in all_results or result.score > all_results[result.id].score:
all_results[result.id] = result`.  A Python dict keeps the original insertion
position on overwrite and appends new keys. -/
def dictUpd (acc : List Hit) (e : Hit) : List Hit :=
  match List.lookup e.1 acc with
  | some s => if s < e.2 then acc.map (fun kv => if kv.1 = e.1 then (kv.1, e.2) else kv) else acc
  | none => acc ++ [e]

/-- The merged `all_results` dict after iterating the three spaces in order
`text`, `classifier_1`, `classifier_2` (lines 369-384). -/
def mergeHits (t c1 c2 : List Hit) : List Hit :=
  (t ++ c1 ++ c2).foldl dictUpd []

/-- Descending order on scores, the key of
`sorted(..., key=lambda x: x.score, reverse=True)` (line 386). -/
def scoreGe (a b : Hit) : Prop := b.2 ≤ a.2

instance : DecidableRel scoreGe := fun a b => inferInstanceAs (Decidable (b.2 ≤ a.2))

instance : IsTotal Hit scoreGe := ⟨fun a b => le_total b.2 a.2⟩

instance : IsTrans Hit scoreGe := ⟨fun _ _ _ h1 h2 => le_trans h2 h1⟩

/-- Multi-vector search (`req.use_classifiers` true, lines 368-386):
`queryFn space` is the candidate list returned by `client.query_points` for
that named vector space (the index is an external collaborator; the code
passes it `limit=req.limit*2`, the filter and the threshold).  Merge keeping
the best score per id, sort by score descending, truncate to `limit`. -/
def searchMulti (queryFn : String → List Hit) (limit : Nat) : List Hit :=
  (List.insertionSort scoreGe
    (mergeHits (queryFn "text") (queryFn "classifier_1") (queryFn "classifier_2"))).take limit

/-- `search` with the filter made explicit: every per-space query receives the
payload filter built from `user_id` and `domain` (lines 355-386). -/
def searchFiltered (qf : String → List FieldCond → List Hit) (user_id : String)
    (domain : Option String) (limit : Nat) : List Hit :=
  searchMulti (fun sp => qf sp (mustConditions user_id domain)) limit

/-- The scores observed for record `k` in a candidate list. -/
def scoresIn (k : Nat) (l : List Hit) : List ℚ :=
  (l.filter (fun e => e.1 == k)).map Prod.snd

/-- The scores observed for record `k` across the three per-space queries. -/
def observedScores (queryFn : String → List Hit) (k : Nat) : List ℚ :=
  scoresIn k (queryFn "text" ++ queryFn "classifier_1" ++ queryFn "classifier_2")

/-- Best score so far (`none` when the record has not been seen yet) combined
with a newly observed score. -/
def omax : Option ℚ → ℚ → ℚ
  | some s, x => max s x
  | none, x => x

/-- Best score after a run of observations starting from `o`. -/
def foldScores (o : Option ℚ) (ss : List ℚ) : Option ℚ :=
  ss.foldl (fun acc x => some (omax acc x)) o

end Qdrant

namespace Classifier

/-! ## `src/classifier_service.py` -/

/-- Python `str.strip()`. -/
def pyStrip (s : String) : String :=
  String.mk (((s.toList.dropWhile Char.isWhitespace).reverse.dropWhile
    Char.isWhitespace).reverse)

/-- Split a character list at every occurrence of `sep` (Python
`str.split(sep)` for a one-character separator). -/
def splitChar (sep : Char) : List Char → List (List Char)
  | [] => [[]]
  | c :: cs =>
    match splitChar sep cs with
    | [] => [[]]
    | h :: t => if c == sep then [] :: h :: t else (c :: h) :: t

/-- Python `s.split(sep)` for a one-character separator. -/
def pySplit (s : String) (sep : Char) : List String :=
  (splitChar sep s.toList).map String.mk

/-- Python `c.lstrip('0123456789. ')` (classifier_service.py line 106). -/
def lstripDigitsDotSpace (s : String) : String :=
  String.mk (s.toList.dropWhile (fun ch => ch.isDigit || ch == '.' || ch == ' '))

/-- Python `c.split('\n')[0].strip()` (line 108). -/
def firstLineTrim (s : String) : String :=
  pyStrip ((pySplit s '\n').headD "")

/-- The cleaning step of one candidate classifier (lines 104-115): strip
leading digits/dots/spaces, keep the first line, and keep the result only when
`0 < len < 50` and it contains no `?`.  The `for prefix ...: continue` loop of
lines 110-112 has no effect (its `continue` targets the inner loop) and is
omitted. -/
def cleanOne (c : String) : Option String :=
  let c1 := lstripDigitsDotSpace c
  let c2 := firstLineTrim c1
  if 0 < c2.length && c2.length < 50 && !(containsSub c2 "?") then some c2 else none

/-- Parsing of the generated text into candidate classifiers
(classifier_service.py lines 92-115): split on commas if any, else on
newlines if any, else the whole trimmed string; then clean each candidate. -/
def parseGenerated (generated : String) : List String :=
  let classifiers :=
    if containsSub generated "," then
      ((pySplit generated ',').map pyStrip).filter (fun c => c != "")
    else if containsSub generated "\n" then
      ((pySplit generated '\n').map pyStrip).filter (fun c => c != "")
    else [pyStrip generated]
  classifiers.filterMap cleanOne

/-- The parsing-failure fallback (lines 119-124). -/
def fallbackClassifiers (text : String) : List String :=
  if containsSub (pyLower text) "food" || containsSub (pyLower text) "eat" then
    ["food preference", "dietary"]
  else ["personal preference", "general"]

/-- `while len(classifiers) < 2: classifiers.append(classifiers[0] if
classifiers else "general")` (lines 126-128): pad to two entries by
duplicating the first. -/
def padTo2 : List String → List String
  | [] => ["general", "general"]
  | [a] => [a, a]
  | l => l

/-- `extract_classifiers_single` (classifier_service.py lines 55-130) from the
decoded LLM output: `generated` is `response[len(prompt):].strip()` (line 90,
the language model itself is an external collaborator); parse, take the first
two, fall back when parsing produced nothing, pad to exactly two. -/
def extract_classifiers_single (text generated : String) : List String :=
  let cs := (parseGenerated generated).take 2
  let cs2 := if cs.isEmpty then fallbackClassifiers text else cs
  (padTo2 cs2).take 2

end Classifier

namespace V3

/-! ## `local-test-deployment/qdrant_service_v3_batched.py` -/

/-- `BATCH_SIZE = 10` (line 25). -/
def BATCH_SIZE : Nat := 10

/-- `BATCH_TIMEOUT = 0.1` (line 26).  Time is modelled in integer
milliseconds, an exact rescaling of the source's constants: `0.1 s = 100 ms`
and the `max(0.001, ...)` floor of line 179 is `1 ms`. -/
def BATCH_TIMEOUT : ℤ := 100

/-- `AddMemoryRequest` of the batched service (lines 83-87): no
pre-computed classifiers in this variant. -/
structure Request where
  user_id : String
  text : String
  topic : Option String := none
  type_ : String := "stable"
deriving DecidableEq

/-- `infer_topic` of the batched service (lines 157-166); its keyword lists
are wider than those of qdrant_service.py. -/
def infer_topic (text : String) : Option String :=
  let lower := pyLower text
  if containsAny lower ["food", "restaurant", "cuisine", "meal", "dinner",
      "lunch", "breakfast", "eat", "allergy", "vegetarian"] then some "food"
  else if containsAny lower ["movie", "film", "cinema", "director", "actor"] then
    some "movies"
  else if containsAny lower ["music", "song", "artist", "album", "band"] then
    some "music"
  else none

/-- The completion handle (`asyncio` future) of one enqueued item: fulfilled
at most once, with a success payload or an error. -/
inductive FutureState where
  | pending
  | success (topic : Option String) (classifiers : List String)
  | failure (msg : String)
deriving DecidableEq

/-- The fate of the batch items' futures in one `batch_processor` iteration
(lines 193-261), for a batch whose classifier generation and embedding
succeeded and whose shared upsert outcome is `upsertResult`.

Faithful to the source's ordering: the loop of lines 214-247 builds the points
AND calls `item['future'].set_result(...)` (success payload, line 243) for
every item, and only afterwards line 250 calls `client.upsert`.  If that
raises, the handler of lines 255-261 runs
`if not item['future'].done(): item['future'].set_exception(e)` — a no-op for
futures already resolved. -/
def processBatchFutures (batch : List Request) (allClassifiers : List (List String))
    (upsertResult : Except String Unit) : List FutureState :=
  let afterBuild := (batch.zip allClassifiers).map (fun ic =>
    FutureState.success (Qdrant.pyOr ic.1.topic (infer_topic ic.1.text)) ic.2)
  match upsertResult with
  | Except.ok _ => afterBuild
  | Except.error e =>
    afterBuild.map (fun f =>
      match f with
      | FutureState.pending => FutureState.failure e
      | f => f)

/-- The batch-collection loop (lines 174-187) with explicit time.  `arrivals`
is the time-ordered queue of pending items (arrival time, item); `now` is the
current time and `deadline = (iteration start) + BATCH_TIMEOUT` (line 175,
computed BEFORE the first item is dequeued).  Each `asyncio.wait_for(get,
timeout)` with `timeout = max(0.001, deadline - now)` (line 179) yields the
next item if it arrives within the timeout and raises `TimeoutError`
(breaking the loop) otherwise; the `if timeout <= 0: break` of line 180 is
unreachable since the timeout is at least 0.001. -/
def collectTimed {α : Type} : List (ℤ × α) → ℤ → ℤ → List α → List α
  | [], _, _, batch => batch
  | (t, x) :: rest, now, deadline, batch =>
    if BATCH_SIZE ≤ batch.length then batch
    else if t ≤ now + max 1 (deadline - now) then
      collectTimed rest (max now t) deadline (batch ++ [x])
    else batch

/-- One `batch_processor` iteration starting at time `t0` (lines 172-191):
collect a batch against the deadline `t0 + BATCH_TIMEOUT`; an empty batch is
not processed (`if not batch: ... continue`, lines 189-191). -/
def processTimedBatch {α : Type} (arrivals : List (ℤ × α)) (t0 : ℤ) :
    Option (List α) :=
  if (collectTimed arrivals t0 (t0 + BATCH_TIMEOUT) []).isEmpty then none
  else some (collectTimed arrivals t0 (t0 + BATCH_TIMEOUT) [])

/-- `add_memory` of the batched service (lines 263-282): every request is
enqueued unconditionally (no validation), then the caller awaits its future. -/
def add_memory_enqueue (queue : List Request) (req : Request) : List Request :=
  queue ++ [req]

end V3

/-! ## Concrete instances used by counterexamples and witnesses -/

/-- A request providing exactly one classifier. -/
def oneClassifierReq : Qdrant.AddMemoryRequest :=
  { user_id := "u1", text := "hello world", classifiers := some ["solo label"] }

/-- A request providing two classifiers. -/
def twoClassifierReq : Qdrant.AddMemoryRequest :=
  { user_id := "u1", text := "hello world", classifiers := some ["a", "b"] }

/-- A malformed request with empty text. -/
def emptyTextReq : Qdrant.AddMemoryRequest := { user_id := "u1", text := "" }

/-- The same malformed request for the batched service. -/
def emptyTextReqV3 : V3.Request := { user_id := "u1", text := "" }

/-- A plain request used to exercise idempotent ingestion. -/
def jazzReq : Qdrant.AddMemoryRequest := { user_id := "u1", text := "I love jazz music" }

/-- A memory submitted twice in one batch. -/
def dupMem : Qdrant.AddMemoryRequest := { user_id := "u2", text := "I love jazz music" }

/-- A single-item batch whose upsert will be made to fail. -/
def v3FailReq : V3.Request := { user_id := "u1", text := "I love sushi restaurants" }

/-- Per-space query results realising the spec's fusion example (0.4 / 0.9 /
0.1 for record 1). -/
def exampleQueries : String → List Qdrant.Hit := fun sp =>
  if sp = "text" then [(1, Rat.mk' 2 5)]
  else if sp = "classifier_1" then [(1, Rat.mk' 9 10)]
  else [(1, Rat.mk' 1 10)]

/-! ## Helper lemmas -/

/-- The keyword heuristic returns exactly two classifiers in every branch. -/
theorem heuristic_length_two (text : String) :
    (Qdrant.simple_heuristic_classifiers text).length = 2 := by
  unfold Qdrant.simple_heuristic_classifiers
  dsimp only
  split_ifs <;> rfl

/-- Records surviving the removal pass of `upsert` never carry the removed id. -/
theorem filter_eq_of_filter_ne (s : Qdrant.Store) (id : Nat) :
    (s.filter (fun kv => kv.1 != id)).filter (fun kv => kv.1 == id) = [] := by
  induction s with
  | nil => rfl
  | cons a s ih =>
    by_cases h : a.1 = id <;> simp [List.filter_cons, h, ih]

/-- After an upsert, exactly one stored record carries the upserted id. -/
theorem countId_upsert (s : Qdrant.Store) (id : Nat) (p : Qdrant.Payload) :
    Qdrant.countId (Qdrant.upsert s id p) id = 1 := by
  unfold Qdrant.countId Qdrant.upsert
  rw [List.filter_append, filter_eq_of_filter_ne]
  simp

/-! ## Claims -/

/-- C2: on the input text `"I have a severe peanut allergy"` the deterministic
heuristic returns `["personal preference", "general"]` — the allergy branch is
gated behind a food-keyword check none of whose words occur in the text — while
topic inference does return `"food"`; the claimed classifier list
`["dietary restriction", "health condition"]` is not produced. -/
theorem peanut_allergy_heuristic_result :
    Qdrant.simple_heuristic_classifiers "I have a severe peanut allergy" =
      ["personal preference", "general"] ∧
    Qdrant.infer_topic "I have a severe peanut allergy" = some "food" ∧
    (Qdrant.simple_heuristic_classifiers "I have a severe peanut allergy" ==
      ["dietary restriction", "health condition"]) = false := by
  decide

/-- C1: when the shared upsert of a batch fails, no item in the batch receives
the error — every future was already resolved with a success payload while the
points were being built, before the upsert ran, and the error handler skips
futures that are already done.  Evaluated on a one-item batch whose upsert
raises. -/
theorem batch_upsert_error_not_propagated :
    V3.processBatchFutures [v3FailReq] [["food preference", "taste"]]
        (Except.error "index unavailable") =
      [V3.FutureState.success (some "food") ["food preference", "taste"]] ∧
    ((V3.processBatchFutures [v3FailReq] [["food preference", "taste"]]
        (Except.error "index unavailable")).filter
      (fun f => f == V3.FutureState.failure "index unavailable")).length = 0 := by
  decide

/-- C9 counterexample: an `add_memory` request with empty text is not rejected:
the single-service endpoint reports success and writes the record to the index,
and the batched endpoint enqueues the request unconditionally. -/
theorem empty_text_not_validated_counterexample :
    (Qdrant.add_memory true [] emptyTextReq).1.status = "success" ∧
    Qdrant.countId (Qdrant.add_memory true [] emptyTextReq).2
      (Qdrant.pointId "u1" "" none) = 1 ∧
    V3.add_memory_enqueue [] emptyTextReqV3 = [emptyTextReqV3] := by
  decide

/-- C9 (amended): `add_memory` performs no validation at all — a request with
empty text is processed like any other: the handler reports success and the
record is written to the index (and the batched variant enqueues it). -/
theorem empty_text_processed_normally (useService : Bool) (store : Qdrant.Store)
    (req : Qdrant.AddMemoryRequest) (_h : req.text = "")
    (queue : List V3.Request) (vreq : V3.Request) :
    (Qdrant.add_memory useService store req).1.status = "success" ∧
    Qdrant.countId (Qdrant.add_memory useService store req).2
      (Qdrant.pointId req.user_id req.text (Qdrant.resolvedTopic req)) = 1 ∧
    V3.add_memory_enqueue queue vreq = queue ++ [vreq] :=
  ⟨rfl, countId_upsert store _ _, rfl⟩

/-- C9 witness: the amended theorem applied to the concrete empty-text
request. -/
theorem empty_text_processed_normally_witness :
    emptyTextReq.text = "" ∧
    Qdrant.countId (Qdrant.add_memory true [] emptyTextReq).2
      (Qdrant.pointId emptyTextReq.user_id emptyTextReq.text
        (Qdrant.resolvedTopic emptyTextReq)) = 1 :=
  ⟨rfl, (empty_text_processed_normally true [] emptyTextReq rfl [] emptyTextReqV3).2.1⟩

/-- C3 counterexample: a request providing exactly one classifier stores the
heuristic classifiers but reports `classifier_source = "provided"`, not
`"heuristic"` as claimed — the reported source reflects whether any
classifiers were provided, not which source was actually used. -/
theorem single_provided_classifier_counterexample :
    (Qdrant.add_memory true [] oneClassifierReq).1.classifier_source = "provided" ∧
    (Qdrant.add_memory true [] oneClassifierReq).1.classifiers =
      Qdrant.simple_heuristic_classifiers "hello world" ∧
    ("provided" == "heuristic") = false := by
  decide

/-- C3 (amended): with ≥ 2 provided classifiers, the first two are stored
verbatim and the source is reported `"provided"`; with no provided classifiers
(absent or empty list) the heuristic is used and reported `"heuristic"`; but a
request providing exactly one classifier gets heuristic classifiers while the
source is still reported `"provided"`.  The stored payload carries exactly the
response's classifiers and source. -/
theorem add_memory_classifier_resolution (useService : Bool)
    (store : Qdrant.Store) (req : Qdrant.AddMemoryRequest) :
    (Qdrant.add_memory useService store req).2 =
      Qdrant.upsert store
        (Qdrant.pointId req.user_id req.text (Qdrant.resolvedTopic req))
        ⟨req.text, req.user_id, Qdrant.resolvedTopic req, req.type_,
          (Qdrant.add_memory useService store req).1.classifiers,
          some ((Qdrant.add_memory useService store req).1.classifier_source)⟩ ∧
    (∀ l, req.classifiers = some l → 2 ≤ l.length →
      (Qdrant.add_memory useService store req).1.classifiers = l.take 2 ∧
      (Qdrant.add_memory useService store req).1.classifier_source = "provided") ∧
    ((req.classifiers = none ∨ req.classifiers = some []) →
      (Qdrant.add_memory useService store req).1.classifiers =
        Qdrant.simple_heuristic_classifiers req.text ∧
      (Qdrant.add_memory useService store req).1.classifier_source = "heuristic") ∧
    (∀ l, req.classifiers = some l → l.length = 1 →
      (Qdrant.add_memory useService store req).1.classifiers =
        Qdrant.simple_heuristic_classifiers req.text ∧
      (Qdrant.add_memory useService store req).1.classifier_source = "provided") := by
  refine ⟨rfl, ?_, ?_, ?_⟩
  · intro l hl h2
    simp only [Qdrant.add_memory, Qdrant.memClassifiers, Qdrant.classifierSource, hl]
    have : ¬ l.isEmpty := by
      cases l with
      | nil => simp at h2
      | cons a l => simp
    simp [h2, this]
  · rintro (hl | hl) <;>
      simp [Qdrant.add_memory, Qdrant.memClassifiers, Qdrant.classifierSource, hl]
  · intro l hl h1
    simp only [Qdrant.add_memory, Qdrant.memClassifiers, Qdrant.classifierSource, hl]
    have hne : ¬ l.isEmpty := by
      cases l with
      | nil => simp at h1
      | cons a l => simp
    have hlt : ¬ 2 ≤ l.length := by omega
    simp [hlt, hne]

/-- C3 witness: the amended theorem at a request with two provided classifiers
and at the one-classifier request. -/
theorem add_memory_classifier_resolution_witness :
    ((Qdrant.add_memory true [] twoClassifierReq).1.classifiers =
        ["a", "b"].take 2 ∧
      (Qdrant.add_memory true [] twoClassifierReq).1.classifier_source =
        "provided") ∧
    ((Qdrant.add_memory true [] oneClassifierReq).1.classifiers =
        Qdrant.simple_heuristic_classifiers oneClassifierReq.text ∧
      (Qdrant.add_memory true [] oneClassifierReq).1.classifier_source =
        "provided") :=
  ⟨(add_memory_classifier_resolution true [] twoClassifierReq).2.1
      ["a", "b"] rfl (by decide),
   (add_memory_classifier_resolution true [] oneClassifierReq).2.2.2
      ["solo label"] rfl (by decide)⟩

/-- C4: the point id is a function of `(user_id, text, resolved topic)` —
requests agreeing on the triple derive the same id — and submitting the same
triple twice leaves exactly one stored record for that id (the second
submission upserts in place). -/
theorem point_id_deterministic_idempotent (useService : Bool)
    (store : Qdrant.Store) (r1 r2 : Qdrant.AddMemoryRequest)
    (hu : r1.user_id = r2.user_id) (ht : r1.text = r2.text)
    (htopic : Qdrant.resolvedTopic r1 = Qdrant.resolvedTopic r2) :
    Qdrant.pointId r1.user_id r1.text (Qdrant.resolvedTopic r1) =
      Qdrant.pointId r2.user_id r2.text (Qdrant.resolvedTopic r2) ∧
    Qdrant.countId
      (Qdrant.add_memory useService (Qdrant.add_memory useService store r1).2 r2).2
      (Qdrant.pointId r1.user_id r1.text (Qdrant.resolvedTopic r1)) = 1 := by
  have hid : Qdrant.pointId r1.user_id r1.text (Qdrant.resolvedTopic r1) =
      Qdrant.pointId r2.user_id r2.text (Qdrant.resolvedTopic r2) := by
    rw [hu, ht, htopic]
  refine ⟨hid, ?_⟩
  rw [hid]
  exact countId_upsert _ _ _

/-- C4 witness: the theorem applied to two identical concrete requests. -/
theorem point_id_deterministic_idempotent_witness :
    jazzReq.user_id = jazzReq.user_id ∧
    Qdrant.countId
      (Qdrant.add_memory true (Qdrant.add_memory true [] jazzReq).2 jazzReq).2
      (Qdrant.pointId jazzReq.user_id jazzReq.text
        (Qdrant.resolvedTopic jazzReq)) = 1 :=
  ⟨rfl, (point_id_deterministic_idempotent true [] jazzReq jazzReq
    rfl rfl rfl).2⟩

/-- Filling placeholders from the service response preserves length. -/
theorem fillFromService_length (xs : List (Option (List String))) :
    ∀ rs, (Qdrant.fillFromService xs rs).length = xs.length := by
  induction xs with
  | nil => intro rs; rfl
  | cons x xs ih =>
    intro rs
    cases x with
    | some c => simp [Qdrant.fillFromService, ih]
    | none =>
      cases rs with
      | nil => simp [Qdrant.fillFromService, ih]
      | cons r rs => simp [Qdrant.fillFromService, ih]

/-- `add_memories_batch` builds one classifier list per memory. -/
theorem batchAllClassifiers_length (memories : List Qdrant.AddMemoryRequest)
    (useService : Bool) (svc : Option (List (List String))) :
    (Qdrant.batchAllClassifiers memories useService svc).length =
      memories.length := by
  unfold Qdrant.batchAllClassifiers
  have hinit : (Qdrant.batchInit memories).length = memories.length := by
    simp [Qdrant.batchInit]
  cases useService <;> cases svc <;>
    simp [List.length_zip, hinit, fillFromService_length]

/-- `add_memories_batch` builds one point per memory. -/
theorem batchPoints_length (memories : List Qdrant.AddMemoryRequest)
    (useService : Bool) (svc : Option (List (List String))) :
    (Qdrant.batchPoints memories useService svc).length = memories.length := by
  unfold Qdrant.batchPoints
  simp [List.length_zip, batchAllClassifiers_length]

/-- C10: the `inserted` count reported by `add_memories_batch` equals the
number of memories in the request — one point is built per submitted memory —
even when two memories derive the same record id and collapse to a single
stored record, as the concrete two-element batch shows (`inserted = 2`, one
stored record). -/
theorem batch_inserted_count (useService : Bool) (store : Qdrant.Store)
    (memories : List Qdrant.AddMemoryRequest)
    (svc : Option (List (List String))) :
    (Qdrant.add_memories_batch useService store memories svc).1.2 =
      memories.length ∧
    (Qdrant.add_memories_batch true [] [dupMem, dupMem] none).1.2 = 2 ∧
    (Qdrant.add_memories_batch true [] [dupMem, dupMem] none).2.length = 1 := by
  refine ⟨batchPoints_length memories useService svc, by decide, by decide⟩

/-- C6 counterexample: the deadline is fixed at iteration start, before the
first item is dequeued (line 175), so a batch can close although neither limit
of the claim was reached.  With the iteration starting at time 0 (ms), the
first item arriving at 90 and a second at 150: the loop closes the batch as
`[1]` at the 100 ms deadline even though the batch held 1 < BATCH_SIZE items
and the second item arrived within BATCH_TIMEOUT of the first (150 < 90 + 100);
anchoring the deadline at the first item instead would have collected both. -/
theorem batch_deadline_anchor_counterexample :
    V3.collectTimed [((90 : ℤ), (1 : Nat)), (150, 2)] 0 (0 + V3.BATCH_TIMEOUT) []
      = [1] ∧
    ((150 : ℤ) ≤ 90 + V3.BATCH_TIMEOUT) ∧
    (1 < V3.BATCH_SIZE) ∧
    V3.collectTimed [((90 : ℤ), (1 : Nat)), (150, 2)] 0 (90 + V3.BATCH_TIMEOUT) []
      = [1, 2] := by
  decide

/-- C6 (amended): the batch-forming loop closes a batch when the batch reaches
`BATCH_SIZE`, or when the next item would arrive after the iteration's
deadline — set to `BATCH_TIMEOUT` after the start of the iteration, before the
first item is dequeued, so the wait since the first item may be shorter than
`BATCH_TIMEOUT`.  Empty batches are never processed, every processed batch has
at most `BATCH_SIZE` items, and a single item dequeued within the iteration's
window is processed in a batch containing exactly that item. -/
theorem batch_forming_loop_spec (α : Type) :
    (∀ (arrivals : List (ℤ × α)) (now deadline : ℤ) (batch : List α),
      batch.length ≤ V3.BATCH_SIZE →
      (V3.collectTimed arrivals now deadline batch).length ≤ V3.BATCH_SIZE) ∧
    (∀ (arrivals : List (ℤ × α)) (t0 : ℤ) (b : List α),
      V3.processTimedBatch arrivals t0 = some b →
      b ≠ [] ∧ b.length ≤ V3.BATCH_SIZE) ∧
    (∀ (p : ℤ × α) (rest : List (ℤ × α)) (now deadline : ℤ) (batch : List α),
      V3.BATCH_SIZE ≤ batch.length →
      V3.collectTimed (p :: rest) now deadline batch = batch) ∧
    (∀ (t : ℤ) (x : α) (rest : List (ℤ × α)) (now deadline : ℤ)
      (batch : List α),
      now + max 1 (deadline - now) < t →
      V3.collectTimed ((t, x) :: rest) now deadline batch = batch) ∧
    (∀ (x : α) (t t0 : ℤ), t ≤ t0 + V3.BATCH_TIMEOUT →
      V3.processTimedBatch [(t, x)] t0 = some [x]) := by
  have hlen : ∀ (arrivals : List (ℤ × α)) (now deadline : ℤ) (batch : List α),
      batch.length ≤ V3.BATCH_SIZE →
      (V3.collectTimed arrivals now deadline batch).length ≤ V3.BATCH_SIZE := by
    intro arrivals
    induction arrivals with
    | nil => intro now deadline batch h; exact h
    | cons p rest ih =>
      intro now deadline batch h
      obtain ⟨t, x⟩ := p
      unfold V3.collectTimed
      split_ifs with hsize ht
      · exact h
      · apply ih
        simp only [List.length_append, List.length_cons, List.length_nil]
        omega
      · exact h
  refine ⟨hlen, ?_, ?_, ?_, ?_⟩
  · intro arrivals t0 b h
    unfold V3.processTimedBatch at h
    split_ifs at h with hempty
    have hb : V3.collectTimed arrivals t0 (t0 + V3.BATCH_TIMEOUT) [] = b :=
      Option.some.inj h
    subst hb
    constructor
    · intro hnil
      rw [hnil] at hempty
      exact hempty rfl
    · exact hlen _ _ _ _ (by simp [V3.BATCH_SIZE])
  · intro p rest now deadline batch h
    obtain ⟨t, x⟩ := p
    unfold V3.collectTimed
    rw [if_pos h]
  · intro t x rest now deadline batch h
    unfold V3.collectTimed
    split_ifs with hsize ht
    · rfl
    · exact absurd ht (not_le.mpr h)
    · rfl
  · intro x t t0 h
    have hcnd : t ≤ t0 + max 1 (t0 + V3.BATCH_TIMEOUT - t0) := by
      have h100 : t0 + V3.BATCH_TIMEOUT - t0 = (100 : ℤ) := by
        simp only [V3.BATCH_TIMEOUT]
        omega
      rw [h100, max_eq_right (by norm_num : (1 : ℤ) ≤ 100)]
      simp only [V3.BATCH_TIMEOUT] at h
      omega
    have hc : V3.collectTimed [(t, x)] t0 (t0 + V3.BATCH_TIMEOUT) [] = [x] := by
      unfold V3.collectTimed
      rw [if_neg (by simp [V3.BATCH_SIZE]), if_pos hcnd]
      rfl
    unfold V3.processTimedBatch
    rw [hc]
    rfl

/-- C6 witness: the amended theorem's single-item clause at a concrete item
arriving 50 ms into the window. -/
theorem batch_forming_loop_spec_witness :
    ((50 : ℤ) ≤ 0 + V3.BATCH_TIMEOUT) ∧
    V3.processTimedBatch [((50 : ℤ), (7 : Nat))] 0 = some [7] :=
  ⟨by decide, (batch_forming_loop_spec Nat).2.2.2.2 7 50 0 (by decide)⟩

/-- The padded result of the classifier service always has exactly two
entries. -/
theorem padTo2_take_two_length (l : List String) :
    ((Classifier.padTo2 l).take 2).length = 2 := by
  match l with
  | [] => rfl
  | [a] => rfl
  | a :: b :: l => rfl

/-- The parsing-failure fallback is already a two-element list. -/
theorem padTo2_fallback (text : String) :
    (Classifier.padTo2 (Classifier.fallbackClassifiers text)).take 2 =
      Classifier.fallbackClassifiers text := by
  unfold Classifier.fallbackClassifiers
  split_ifs <;> rfl

/-- `extract_classifiers_single` returns exactly two classifiers for every
text and every generated output. -/
theorem extract_length_two (text generated : String) :
    (Classifier.extract_classifiers_single text generated).length = 2 :=
  padTo2_take_two_length _

/-- C7: classifier resolution returns exactly 2 entries from every source:
the service's extraction pads to two — using the generic fallback when parsing
produced 0 labels and duplicating a single parsed label — and
`get_classifiers` returns two entries whether it uses provided classifiers,
the service's (padded) response, or the keyword heuristic. -/
theorem classifier_resolution_two_entries (text generated : String)
    (provided : Option (List String)) (t g : String) :
    (Classifier.extract_classifiers_single text generated).length = 2 ∧
    (Classifier.parseGenerated generated = [] →
      Classifier.extract_classifiers_single text generated =
        Classifier.fallbackClassifiers text) ∧
    (∀ a, Classifier.parseGenerated generated = [a] →
      Classifier.extract_classifiers_single text generated = [a, a]) ∧
    (Qdrant.get_classifiers text provided true
      (some (Classifier.extract_classifiers_single t g))).length = 2 ∧
    (∀ useService,
      (Qdrant.get_classifiers text provided useService none).length = 2) := by
  refine ⟨extract_length_two text generated, ?_, ?_, ?_, ?_⟩
  · intro h
    unfold Classifier.extract_classifiers_single
    rw [h]
    exact padTo2_fallback text
  · intro a h
    unfold Classifier.extract_classifiers_single
    rw [h]
    rfl
  · unfold Qdrant.get_classifiers
    split_ifs with hp ht
    · simp only [List.length_take]
      omega
    · exact extract_length_two t g
    · exact absurd rfl ht
  · intro useService
    unfold Qdrant.get_classifiers
    split_ifs with hp hs
    · simp only [List.length_take]
      omega
    · exact heuristic_length_two text
    · exact heuristic_length_two text

/-- C7 witness: the padding clause at a generated output the parser reads as
the single label `"hobby"`, plus the service-failure path at a concrete
request. -/
theorem classifier_resolution_two_entries_witness :
    Classifier.parseGenerated "hobby" = ["hobby"] ∧
    Classifier.extract_classifiers_single "x" "hobby" = ["hobby", "hobby"] ∧
    (Qdrant.get_classifiers "x" none true none).length = 2 :=
  ⟨by decide,
   (classifier_resolution_two_entries "x" "hobby" none "t" "g").2.2.1
     "hobby" (by decide),
   (classifier_resolution_two_entries "x" "hobby" none "t" "g").2.2.2.2 true⟩

/-- C8: the payload filter always contains the `user_id` equality; a `topic`
equality is present exactly when the request carried a domain mapping to a
known topic; a domain not in the map builds the same filter as no domain at
all, and hence the whole multi-vector search returns the same result list. -/
theorem search_filter_spec (u : String) (dom : Option String) :
    Qdrant.FieldCond.userEq u ∈ Qdrant.mustConditions u dom ∧
    (∀ t, Qdrant.FieldCond.topicEq t ∈ Qdrant.mustConditions u dom ↔
      ∃ d, dom = some d ∧ Qdrant.topicMapLookup d = some t) ∧
    (∀ d, Qdrant.topicMapLookup d = none →
      Qdrant.mustConditions u (some d) = Qdrant.mustConditions u none) ∧
    (∀ (qf : String → List Qdrant.FieldCond → List Qdrant.Hit) (limit : Nat)
      (d : String), Qdrant.topicMapLookup d = none →
      Qdrant.searchFiltered qf u (some d) limit =
        Qdrant.searchFiltered qf u none limit) := by
  have hbase : ∀ d, Qdrant.topicMapLookup d = none →
      Qdrant.mustConditions u (some d) = Qdrant.mustConditions u none := by
    intro d hd
    unfold Qdrant.mustConditions
    dsimp only
    split_ifs with hemp
    · rfl
    · rw [hd]
  refine ⟨?_, ?_, hbase, ?_⟩
  · cases dom with
    | none => simp [Qdrant.mustConditions]
    | some d =>
      unfold Qdrant.mustConditions
      dsimp only
      split_ifs with hemp
      · simp
      · cases hl : Qdrant.topicMapLookup d <;> simp
  · intro t
    cases dom with
    | none => simp [Qdrant.mustConditions]
    | some d =>
      unfold Qdrant.mustConditions
      dsimp only
      split_ifs with hemp
      · subst hemp
        simp [Qdrant.topicMapLookup]
      · cases hl : Qdrant.topicMapLookup d with
        | none => simp [hl]
        | some t0 =>
          simp only [List.mem_append, List.mem_singleton]
          constructor
          · rintro (h | h)
            · exact absurd h (by simp)
            · obtain rfl : t = t0 := by injection h
              exact ⟨d, rfl, hl⟩
          · rintro ⟨d2, hd2, hlook⟩
            obtain rfl : d2 = d := by
              injection hd2 with h2
              exact h2.symm
            rw [hl] at hlook
            obtain rfl : t0 = t := by injection hlook
            exact Or.inr rfl
  · intro qf limit d hd
    unfold Qdrant.searchFiltered
    rw [hbase d hd]

/-- C8 witness: an unrecognized domain string maps to no topic and yields the
same search results as no domain at all, at concrete inputs. -/
theorem search_filter_spec_witness :
    Qdrant.topicMapLookup "beverages" = none ∧
    Qdrant.searchFiltered (fun _ _ => []) "u1" (some "beverages") 10 =
      Qdrant.searchFiltered (fun _ _ => []) "u1" none 10 :=
  ⟨by decide,
   (search_filter_spec "u1" (some "beverages")).2.2.2 (fun _ _ => []) 10
     "beverages" (by decide)⟩

namespace Qdrant

/-! ### Lemmas about the fusion merge -/

/-- Unfolding `List.lookup` over a cons cell with propositional equality. -/
theorem lookup_cons_hit (a : Hit) (l : List Hit) (k : Nat) :
    List.lookup k (a :: l) = if k = a.1 then some a.2 else List.lookup k l := by
  obtain ⟨a1, a2⟩ := a
  by_cases h : k = a1
  · simp [List.lookup_cons, h]
  · have hb : (k == a1) = false := beq_eq_false_iff_ne.mpr h
    simp [List.lookup_cons, h, hb]

/-- A key found on the left of an append is found in the whole list. -/
theorem lookup_append_of_some {l l2 : List Hit} {k : Nat} {v : ℚ}
    (h : List.lookup k l = some v) : List.lookup k (l ++ l2) = some v := by
  induction l with
  | nil => simp [List.lookup] at h
  | cons a l ih =>
    rw [lookup_cons_hit] at h
    rw [List.cons_append, lookup_cons_hit]
    split_ifs at h ⊢ with hk
    · exact h
    · exact ih h

/-- A key absent on the left of an append is looked up on the right. -/
theorem lookup_append_of_none {l l2 : List Hit} {k : Nat}
    (h : List.lookup k l = none) : List.lookup k (l ++ l2) = List.lookup k l2 := by
  induction l with
  | nil => rfl
  | cons a l ih =>
    rw [lookup_cons_hit] at h
    rw [List.cons_append, lookup_cons_hit]
    split_ifs at h ⊢ with hk
    exact ih h

/-- Lookup after the in-place score overwrite of the dict. -/
theorem lookup_map_update (acc : List Hit) (k t : Nat) (v : ℚ) :
    List.lookup k (acc.map (fun kv => if kv.1 = t then (kv.1, v) else kv)) =
      if k = t then (List.lookup k acc).map (fun _ => v)
      else List.lookup k acc := by
  induction acc with
  | nil => by_cases h : k = t <;> simp [h, List.lookup]
  | cons a l ih =>
    obtain ⟨a1, a2⟩ := a
    rw [List.map_cons]
    by_cases hat : a1 = t
    · subst hat
      rw [if_pos rfl]
      rw [lookup_cons_hit, lookup_cons_hit, ih]
      by_cases hka : k = a1 <;> simp [hka]
    · rw [if_neg hat, lookup_cons_hit, lookup_cons_hit, ih]
      by_cases hka : k = a1
      · subst hka
        simp [hat]
      · simp [hka]

/-- The dict update appends an unseen record. -/
theorem dictUpd_of_none (acc : List Hit) (e : Hit)
    (hl : List.lookup e.1 acc = none) : dictUpd acc e = acc ++ [e] := by
  unfold dictUpd
  rw [hl]

/-- The dict update overwrites the score of a seen record when the new score
is strictly greater. -/
theorem dictUpd_of_some_lt (acc : List Hit) (e : Hit) (s : ℚ)
    (hl : List.lookup e.1 acc = some s) (hlt : s < e.2) :
    dictUpd acc e = acc.map (fun kv => if kv.1 = e.1 then (kv.1, e.2) else kv) := by
  unfold dictUpd
  rw [hl]
  exact if_pos hlt

/-- The dict update keeps the stored entry when the new score is not greater. -/
theorem dictUpd_of_some_ge (acc : List Hit) (e : Hit) (s : ℚ)
    (hl : List.lookup e.1 acc = some s) (hlt : ¬ s < e.2) :
    dictUpd acc e = acc := by
  unfold dictUpd
  rw [hl]
  exact if_neg hlt

/-- The dict update keeps, per key, the best score seen so far. -/
theorem lookup_dictUpd (acc : List Hit) (e : Hit) (k : Nat) :
    List.lookup k (dictUpd acc e) =
      if k = e.1 then some (omax (List.lookup k acc) e.2)
      else List.lookup k acc := by
  cases hl : List.lookup e.1 acc with
  | none =>
    rw [dictUpd_of_none acc e hl]
    by_cases hk : k = e.1
    · rw [if_pos hk]
      have hkacc : List.lookup k acc = none := by rw [hk, hl]
      rw [lookup_append_of_none hkacc, lookup_cons_hit, if_pos hk, hkacc]
      rfl
    · rw [if_neg hk]
      cases hacc : List.lookup k acc with
      | none =>
        rw [lookup_append_of_none hacc, lookup_cons_hit, if_neg hk]
        rfl
      | some v => exact lookup_append_of_some hacc
  | some s =>
    by_cases hlt : s < e.2
    · rw [dictUpd_of_some_lt acc e s hl hlt, lookup_map_update]
      by_cases hk : k = e.1
      · rw [if_pos hk, if_pos hk, hk, hl]
        have homax : omax (some s) e.2 = e.2 := by
          simp [omax, max_eq_right (le_of_lt hlt)]
        rw [homax]
        rfl
      · rw [if_neg hk, if_neg hk]
    · rw [dictUpd_of_some_ge acc e s hl hlt]
      by_cases hk : k = e.1
      · rw [if_pos hk, hk, hl]
        have homax : omax (some s) e.2 = s := by
          simp [omax, max_eq_left (not_lt.mp hlt)]
        rw [homax]
      · rw [if_neg hk]

/-- Scores of a key in a cons cell. -/
theorem scoresIn_cons (k : Nat) (e : Hit) (l : List Hit) :
    scoresIn k (e :: l) =
      if e.1 = k then e.2 :: scoresIn k l else scoresIn k l := by
  by_cases h : e.1 = k <;> simp [scoresIn, List.filter_cons, h]

/-- Folding the dict over a candidate run computes, per key, the best score
among the observations, starting from the accumulator's current value. -/
theorem lookup_foldl_dictUpd (l : List Hit) (acc : List Hit) (k : Nat) :
    List.lookup k (l.foldl dictUpd acc) =
      foldScores (List.lookup k acc) (scoresIn k l) := by
  induction l generalizing acc with
  | nil => rfl
  | cons e l ih =>
    rw [List.foldl_cons, ih, lookup_dictUpd, scoresIn_cons]
    by_cases h : k = e.1
    · rw [if_pos h, if_pos h.symm]
      rfl
    · rw [if_neg h, if_neg (fun he => h he.symm)]

/-- A best score computed by `foldScores` is an observed score (or the seed)
and bounds every observation and the seed. -/
theorem foldScores_some (ss : List ℚ) : ∀ (o : Option ℚ) (m : ℚ),
    foldScores o ss = some m →
    (m ∈ ss ∨ o = some m) ∧ (∀ x ∈ ss, x ≤ m) ∧
      (∀ y, o = some y → y ≤ m) := by
  induction ss with
  | nil =>
    intro o m h
    refine ⟨Or.inr h, by simp, fun y hy => ?_⟩
    rw [hy] at h
    exact le_of_eq (Option.some.inj h)
  | cons x ss ih =>
    intro o m h
    have hstep : foldScores (some (omax o x)) ss = some m := h
    obtain ⟨hmem, hbound, hseed⟩ := ih (some (omax o x)) m hstep
    have homax : omax o x ≤ m := hseed _ rfl
    have hx_le : x ≤ omax o x := by
      cases o with
      | none => exact le_refl x
      | some s => exact le_max_right s x
    constructor
    · rcases hmem with hm | hm
      · exact Or.inl (List.mem_cons_of_mem x hm)
      · have : omax o x = m := Option.some.inj hm
        cases o with
        | none => exact Or.inl (this ▸ List.mem_cons_self x ss)
        | some s =>
          rcases max_choice s x with hc | hc
          · exact Or.inr (by rw [← this, omax, hc])
          · refine Or.inl ?_
            have : x = m := by rw [← this, omax, hc]
            exact this ▸ List.mem_cons_self x ss
    · refine ⟨fun z hz => ?_, fun y hy => ?_⟩
      · rcases List.mem_cons.mp hz with rfl | hz
        · exact le_trans hx_le homax
        · exact hbound z hz
      · have : y ≤ omax o x := by
          cases hy
          exact le_max_left y x
        exact le_trans this homax

/-- A key is absent from the dict exactly when lookup fails. -/
theorem lookup_eq_none_iff (l : List Hit) (k : Nat) :
    List.lookup k l = none ↔ k ∉ l.map Prod.fst := by
  induction l with
  | nil => simp [List.lookup]
  | cons a l ih =>
    rw [lookup_cons_hit]
    by_cases h : k = a.1 <;> simp [h, ih]

/-- The dict update never duplicates a key. -/
theorem keys_dictUpd_nodup (acc : List Hit) (e : Hit)
    (h : (acc.map Prod.fst).Nodup) :
    ((dictUpd acc e).map Prod.fst).Nodup := by
  cases hl : List.lookup e.1 acc with
  | none =>
    have hnotin : e.1 ∉ acc.map Prod.fst := (lookup_eq_none_iff acc e.1).mp hl
    rw [dictUpd_of_none acc e hl]
    simp only [List.map_append, List.map_cons, List.map_nil]
    rw [List.nodup_append]
    exact ⟨h, List.nodup_singleton e.1, by simpa using hnotin⟩
  | some s =>
    by_cases hlt : s < e.2
    · rw [dictUpd_of_some_lt acc e s hl hlt]
      have hkeys : (acc.map (fun kv => if kv.1 = e.1 then (kv.1, e.2) else kv)).map
          Prod.fst = acc.map Prod.fst := by
        rw [List.map_map]
        apply List.map_congr_left
        intro x _
        by_cases hx : x.1 = e.1 <;> simp [hx]
      rw [hkeys]
      exact h
    · rw [dictUpd_of_some_ge acc e s hl hlt]
      exact h

/-- Folding the dict over any run keeps keys duplicate-free. -/
theorem keys_foldl_dictUpd_nodup (l : List Hit) (acc : List Hit)
    (h : (acc.map Prod.fst).Nodup) :
    (((l.foldl dictUpd acc)).map Prod.fst).Nodup := by
  induction l generalizing acc with
  | nil => exact h
  | cons e l ih => exact ih _ (keys_dictUpd_nodup acc e h)

/-- In a duplicate-free dict, membership and lookup agree. -/
theorem mem_iff_lookup (l : List Hit) (k : Nat) (v : ℚ)
    (h : (l.map Prod.fst).Nodup) :
    (k, v) ∈ l ↔ List.lookup k l = some v := by
  induction l with
  | nil => simp [List.lookup]
  | cons a l ih =>
    obtain ⟨a1, a2⟩ := a
    rw [List.map_cons, List.nodup_cons] at h
    obtain ⟨hhead, htail⟩ := h
    rw [List.mem_cons, lookup_cons_hit, ih htail]
    by_cases hk : k = a1
    · rw [if_pos hk]
      constructor
      · rintro (he | hm)
        · injection he with h1 h2
          rw [h2]
        · exfalso
          have hnone : List.lookup k l = none :=
            (lookup_eq_none_iff l k).mpr (by rw [hk]; exact hhead)
          rw [hnone] at hm
          exact absurd hm (by simp)
      · intro he
        have hv : a2 = v := Option.some.inj he
        exact Or.inl (by rw [hk, hv])
    · rw [if_neg hk]
      constructor
      · rintro (he | hm)
        · exfalso
          injection he with h1 h2
          exact hk h1
        · exact hm
      · exact fun hm => Or.inr hm

end Qdrant

/-- C5: multi-vector search returns at most one entry per record id, each
returned record's score is the maximum score observed for that record across
the three per-space query results (a member of the observed scores bounding
all of them), the list is sorted by score descending, and its length is at
most `limit`. -/
theorem multi_vector_search_fusion (qf : String → List Qdrant.Hit)
    (limit : Nat) :
    ((Qdrant.searchMulti qf limit).map Prod.fst).Nodup ∧
    List.Sorted Qdrant.scoreGe (Qdrant.searchMulti qf limit) ∧
    (Qdrant.searchMulti qf limit).length ≤ limit ∧
    (∀ e ∈ Qdrant.searchMulti qf limit,
      e.2 ∈ Qdrant.observedScores qf e.1 ∧
        ∀ s ∈ Qdrant.observedScores qf e.1, s ≤ e.2) := by
  set merged := Qdrant.mergeHits (qf "text") (qf "classifier_1")
    (qf "classifier_2") with hm
  have hkeys : (merged.map Prod.fst).Nodup := by
    rw [hm, Qdrant.mergeHits]
    exact Qdrant.keys_foldl_dictUpd_nodup _ [] (by simp)
  have hperm : List.Perm (List.insertionSort Qdrant.scoreGe merged) merged :=
    List.perm_insertionSort _ _
  have hsorted : List.Sorted Qdrant.scoreGe
      (List.insertionSort Qdrant.scoreGe merged) :=
    List.sorted_insertionSort _ _
  have hsub : List.Sublist (Qdrant.searchMulti qf limit)
      (List.insertionSort Qdrant.scoreGe merged) := by
    unfold Qdrant.searchMulti
    rw [← hm]
    exact List.take_sublist _ _
  refine ⟨?_, ?_, ?_, ?_⟩
  · have hkeys2 : ((List.insertionSort Qdrant.scoreGe merged).map
        Prod.fst).Nodup := ((hperm.map Prod.fst).nodup_iff).mpr hkeys
    exact List.Nodup.sublist (hsub.map Prod.fst) hkeys2
  · exact List.Pairwise.sublist hsub hsorted
  · unfold Qdrant.searchMulti
    rw [List.length_take]
    exact min_le_left _ _
  · intro e he
    have hmem : e ∈ merged := hperm.mem_iff.mp (hsub.subset he)
    have hlook : List.lookup e.1 merged = some e.2 := by
      obtain ⟨e1, e2⟩ := e
      exact (Qdrant.mem_iff_lookup merged e1 e2 hkeys).mp hmem
    rw [hm, Qdrant.mergeHits, Qdrant.lookup_foldl_dictUpd] at hlook
    have hfold : Qdrant.foldScores none
        (Qdrant.scoresIn e.1
          (qf "text" ++ qf "classifier_1" ++ qf "classifier_2")) =
        some e.2 := hlook
    obtain ⟨hmem2, hbound, _⟩ := Qdrant.foldScores_some _ _ _ hfold
    refine ⟨?_, hbound⟩
    rcases hmem2 with hh | hh
    · exact hh
    · exact absurd hh (by simp)

/-- C5 witness: the spec's fusion example — record 1 scores 0.4 / 0.9 / 0.1 in
the three spaces, is returned with score 0.9, and 0.9 is the maximum of its
observed scores. -/
theorem multi_vector_search_fusion_witness :
    (1, Rat.mk' 9 10) ∈ Qdrant.searchMulti exampleQueries 10 ∧
    (Rat.mk' 9 10 ∈ Qdrant.observedScores exampleQueries 1 ∧
      ∀ s ∈ Qdrant.observedScores exampleQueries 1, s ≤ Rat.mk' 9 10) :=
  ⟨by decide,
   (multi_vector_search_fusion exampleQueries 10).2.2.2 (1, Rat.mk' 9 10)
     (by decide)⟩

end HybridMemory
